import Mathlib

/-!
# Verification of the family-tree kinship addressing engine

Shallow embedding of the `AddressingEngine` (graph builder, BFS path
finder, step classifier, title resolver, greeting and confidence
annotator) of the family_tree repository, together with proofs of the
specification claims about it.

Conventions of the embedding:
* TypeScript strings are `String`, numbers used as years are `Int`,
  confidence scores are `Rat`.
* Optional TS fields are `Option _`; a TS truthiness test on an optional
  string field (`if (r.label)`) is `strTruthy`, which is false for both
  `undefined` and the empty string.
* Fallible code paths (the source's non-null assertions `!` on
  `Array.find`, which throw at runtime when the lookup fails) are
  modelled by `Option` results: `none` marks the states where the
  TypeScript would throw.
* The BFS loop is defined with an explicit fuel argument so that the
  function is structurally recursive and kernel-computable; the chosen
  fuel is proved sufficient (`bfsAux` never returns its out-of-fuel
  marker `none` on the fuel `findRelationPath` supplies), which is the
  termination argument of the source's `while` loop.
-/

namespace FamilyTree

/-- `Gender` enum of the source (`'M' | 'F' | 'U'`). -/
inductive Gender where
  | male
  | female
  | unknown
deriving DecidableEq, Repr

/-- `RelationType` enum of the source (`parent | spouse | sibling | custom`). -/
inductive RelationType where
  | parent
  | spouse
  | sibling
  | custom
deriving DecidableEq, Repr

/-- `LineageType` enum of the source (`paternal | maternal`). -/
inductive LineageType where
  | paternal
  | maternal
deriving DecidableEq, Repr

/-- The `Person` interface, restricted to the fields the engine reads. -/
structure Person where
  id : String
  name : String := ""
  gender : Gender := .unknown
  birthYear : Option Int := none
  families : List String := []
deriving DecidableEq, Repr

/-- The `Relation` interface, restricted to the fields the engine reads. -/
structure Relation where
  id : String
  type : RelationType
  personAId : String
  personBId : String
  parentId : Option String := none
  childId : Option String := none
  subjectId : Option String := none
  label : Option String := none
  familyId : Option String := none
deriving DecidableEq, Repr

/-- The `AddressingInfo` result record.  Titles are the enum's underlying
strings (`AddressingTitle.BA = "Ba"`, …, `AddressingTitle.UNKNOWN = "?"`),
since the source freely mixes enum members and free-form label strings. -/
structure AddressingInfo where
  title : String
  explanation : String
  greetingExamples : List String
  lineage : Option LineageType
  generation : Int
  confidence : Rat
deriving DecidableEq, Repr

/-- TS truthiness of an optional string field: `undefined` and `""` are falsy. -/
def strTruthy : Option String → Bool
  | none => false
  | some s => s ≠ ""

/-! ## Path finder (`AddressingEngine.findRelationPath`) -/

/-- `AddressingEngine.getRelatedPersons`: all persons directly related to
`personId`, in the relation list's original order.  For each relation, if
`personAId` matches, the neighbour is `personBId`; otherwise if
`personBId` matches, the neighbour is `personAId`. -/
def getRelatedPersons (relations : List Relation) (personId : String) :
    List (String × Relation) :=
  relations.filterMap fun r =>
    if r.personAId = personId then some (r.personBId, r)
    else if r.personBId = personId then some (r.personAId, r)
    else none

/-- A BFS queue entry: a person id together with the relation-id path
that led to it. -/
structure QEntry where
  personId : String
  path : List String
deriving DecidableEq, Repr

/-- The enqueue step of the BFS loop: all neighbours of the dequeued
entry's person not yet in the (updated) visited set, each with the
extended relation-id path, in relation-list order. -/
def bfsNews (relations : List Relation) (e : QEntry) (visited' : Finset String) :
    List QEntry :=
  (getRelatedPersons relations e.personId).filterMap
    fun pr => if pr.1 ∈ visited' then none else some ⟨pr.1, e.path ++ [pr.2.id]⟩

/-- The body of the source's BFS `while` loop.  `fuel` bounds the number
of iterations; the outer `none` is the out-of-fuel marker (proved
unreachable for the fuel `findRelationPath` supplies), the inner
`Option` is the source's `string[] | null` result. -/
def bfsAux (relations : List Relation) (toId : String) :
    Nat → List QEntry → Finset String → Option (Option (List String))
  | 0, _, _ => none
  | _ + 1, [], _ => some none
  | fuel + 1, e :: rest, visited =>
    if e.personId ∈ visited then
      bfsAux relations toId fuel rest visited
    else if e.personId = toId then
      some (some e.path)
    else
      bfsAux relations toId fuel
        (rest ++ bfsNews relations e (insert e.personId visited))
        (insert e.personId visited)

/-- All person ids the BFS can ever enqueue: the start id and every
relation endpoint. -/
def univIds (fromId : String) (relations : List Relation) : Finset String :=
  insert fromId
    (relations.foldr (fun r s => insert r.personAId (insert r.personBId s)) ∅)

/-- Fuel sufficient for the BFS to drain its queue (proved in
`bfsAux_adequate`). -/
def initFuel (fromId : String) (relations : List Relation) : Nat :=
  2 + (univIds fromId relations).card * (relations.length + 1)

/-- `AddressingEngine.findRelationPath`: empty path for `fromId = toId`,
otherwise BFS over the undirected projection of all relations. -/
def findRelationPath (relations : List Relation) (fromId toId : String) :
    Option (List String) :=
  if fromId = toId then some []
  else
    match bfsAux relations toId (initFuel fromId relations) [⟨fromId, []⟩] ∅ with
    | some r => r
    | none => none

/-! ## Specification-side graph notions

`Adj` and `Walk` describe the undirected projection of the relation
list, phrased directly through the executable neighbour enumeration so
that they denote exactly the edges the BFS can traverse. -/

/-- `rid` is an edge between `x` and `y` in the undirected projection:
some relation with id `rid` lists `y` as a neighbour of `x`. -/
def Adj (relations : List Relation) (x y rid : String) : Prop :=
  ∃ r, (y, r) ∈ getRelatedPersons relations x ∧ r.id = rid

/-- A walk from `x` to `y` along the relation-id list `p`. -/
inductive Walk (relations : List Relation) : String → String → List String → Prop where
  | nil (x : String) : Walk relations x x []
  | cons {x y z rid : String} {p : List String} :
      Adj relations x y rid → Walk relations y z p → Walk relations x z (rid :: p)

theorem Walk.snoc {relations : List Relation} {x y z rid : String} {p : List String}
    (hw : Walk relations x y p) (ha : Adj relations y z rid) :
    Walk relations x z (p ++ [rid]) := by
  induction hw with
  | nil => exact Walk.cons ha (Walk.nil _)
  | cons ha' _ ih => exact Walk.cons ha' (ih ha)

theorem mem_getRelatedPersons {relations : List Relation} {x y : String} {r : Relation}
    (h : (y, r) ∈ getRelatedPersons relations x) : r ∈ relations := by
  simp only [getRelatedPersons, List.mem_filterMap] at h
  obtain ⟨r', hr', hy⟩ := h
  split at hy
  · cases hy; exact hr'
  · split at hy
    · cases hy; exact hr'
    · cases hy

/-- Every edge id of a walk is the id of some relation in the list. -/
theorem Walk.ids_mem {relations : List Relation} {x y : String} {p : List String}
    (hw : Walk relations x y p) : ∀ rid ∈ p, ∃ r ∈ relations, r.id = rid := by
  induction hw with
  | nil => intro rid h; cases h
  | cons ha _ ih =>
    intro rid hrid
    rcases List.mem_cons.mp hrid with h | h
    · obtain ⟨r, hr, hid⟩ := ha
      exact ⟨r, mem_getRelatedPersons hr, h ▸ hid⟩
    · exact ih rid h

/-! ## BFS loop invariant -/

/-- Invariant of the BFS state `(queue, visited)` for a search from `f`
to `t` over `relations`, with `univ` a superset of every enqueueable id. -/
structure BfsInv (relations : List Relation) (f t : String) (univ : Finset String)
    (queue : List QEntry) (visited : Finset String) : Prop where
  mem_univ : ∀ e ∈ queue, e.personId ∈ univ
  sound : ∀ e ∈ queue, Walk relations f e.personId e.path
  sorted : queue.Pairwise fun a b => a.path.length ≤ b.path.length
  close : ∀ e ∈ queue, ∀ e' ∈ queue, e.path.length ≤ e'.path.length + 1
  start : f ∈ visited ∨ (f ∉ visited ∧ ∃ e ∈ queue, e.personId = f ∧ e.path = [])
  frontier : ∀ z ∈ visited, ∀ p, Walk relations f z p → ∀ w rid,
    Adj relations z w rid →
    w ∈ visited ∨ ∃ e ∈ queue, e.personId = w ∧ e.path.length ≤ p.length + 1
  target_unvisited : t ∉ visited
  nil_start : ∀ e ∈ queue, e.path = [] → e.personId = f

/-- From a visited vertex `x` (with a walk of length `|p0|` from `f`),
any walk `q` from `x` to `y` is covered: `y` is visited, or the queue
holds an unvisited entry lying on a walk to `y` of total length at most
`|p0| + |q|`. -/
theorem BfsInv.coverFrom {relations : List Relation} {f t : String} {univ : Finset String}
    {queue : List QEntry} {visited : Finset String}
    (inv : BfsInv relations f t univ queue visited) :
    ∀ {x y : String} {q : List String}, Walk relations x y q →
    x ∈ visited → ∀ p0, Walk relations f x p0 →
    y ∈ visited ∨ ∃ e ∈ queue, e.personId ∉ visited ∧
      ∃ p2, Walk relations e.personId y p2 ∧
        e.path.length + p2.length ≤ p0.length + q.length := by
  intro x y q hq
  induction hq with
  | nil => intro hx _ _; exact Or.inl hx
  | @cons x w y rid q' ha hq' ih =>
    intro hx p0 hp0
    by_cases hw : w ∈ visited
    · rcases ih hw (p0 ++ [rid]) (hp0.snoc ha) with h | ⟨e, he, hev, p2, hp2, hlen⟩
      · exact Or.inl h
      · refine Or.inr ⟨e, he, hev, p2, hp2, ?_⟩
        simpa [List.length_append] using Nat.le_trans hlen (by simp [List.length_append]; omega)
    · rcases inv.frontier x hx p0 hp0 w rid ha with h | ⟨e, he, hepid, hlen⟩
      · exact absurd h hw
      · refine Or.inr ⟨e, he, hepid ▸ hw, q', hepid ▸ hq', ?_⟩
        simp only [List.length_cons]
        omega

/-- Any walk from `f` is covered: its endpoint is visited or an
unvisited queue entry lies on a walk to it of no greater total length. -/
theorem BfsInv.cover {relations : List Relation} {f t : String} {univ : Finset String}
    {queue : List QEntry} {visited : Finset String}
    (inv : BfsInv relations f t univ queue visited) {y : String} {p : List String}
    (hp : Walk relations f y p) :
    y ∈ visited ∨ ∃ e ∈ queue, e.personId ∉ visited ∧
      ∃ p2, Walk relations e.personId y p2 ∧ e.path.length + p2.length ≤ p.length := by
  rcases inv.start with hf | ⟨hf, e, he, hepid, hpath⟩
  · simpa using inv.coverFrom hp hf [] (Walk.nil f)
  · exact Or.inr ⟨e, he, hepid ▸ hf, p, hepid ▸ hp, by simp [hpath]⟩

/-- All vertices strictly closer than the queue's head are visited. -/
theorem BfsInv.headMin {relations : List Relation} {f t : String} {univ : Finset String}
    {e0 : QEntry} {rest : List QEntry} {visited : Finset String}
    (inv : BfsInv relations f t univ (e0 :: rest) visited) {y : String} {p : List String}
    (hp : Walk relations f y p) (hlt : p.length < e0.path.length) : y ∈ visited := by
  rcases inv.cover hp with h | ⟨e, he, _, p2, _, hlen⟩
  · exact h
  · exfalso
    have h0 : e0.path.length ≤ e.path.length := by
      rcases List.mem_cons.mp he with h | h
      · exact h ▸ Nat.le_refl _
      · exact (List.pairwise_cons.mp inv.sorted).1 e h
    omega

theorem fst_mem_getRelatedPersons {relations : List Relation} {x y : String} {r : Relation}
    (h : (y, r) ∈ getRelatedPersons relations x) :
    y = r.personAId ∨ y = r.personBId := by
  simp only [getRelatedPersons, List.mem_filterMap] at h
  obtain ⟨r', _, hy⟩ := h
  split at hy
  · cases hy; exact Or.inr rfl
  · split at hy
    · cases hy; exact Or.inl rfl
    · cases hy

theorem mem_bfsNews {relations : List Relation} {e : QEntry} {visited' : Finset String}
    {e' : QEntry} :
    e' ∈ bfsNews relations e visited' ↔
    ∃ w r, (w, r) ∈ getRelatedPersons relations e.personId ∧ w ∉ visited' ∧
      e' = ⟨w, e.path ++ [r.id]⟩ := by
  simp only [bfsNews, List.mem_filterMap]
  constructor
  · rintro ⟨⟨w, r⟩, hmem, hval⟩
    split at hval
    · cases hval
    · exact ⟨w, r, hmem, by assumption, (Option.some_inj.mp hval).symm⟩
  · rintro ⟨w, r, hmem, hnv, rfl⟩
    exact ⟨(w, r), hmem, by simp [hnv]⟩

theorem length_bfsNews_le (relations : List Relation) (e : QEntry)
    (visited' : Finset String) :
    (bfsNews relations e visited').length ≤ relations.length :=
  Nat.le_trans (List.length_filterMap_le _ _) (List.length_filterMap_le _ _)

/-- Master correctness lemma for the BFS loop: given the invariant and
enough fuel, the loop never runs out of fuel, a `none` result implies
the target is unreachable from `f`, and a `some q` result is a walk
from `f` to `t` of minimal length, empty only when `t = f`. -/
theorem bfsAux_correct (relations : List Relation) (f t : String) (univ : Finset String)
    (hu : ∀ r ∈ relations, r.personAId ∈ univ ∧ r.personBId ∈ univ) :
    ∀ (fuel : Nat) (queue : List QEntry) (visited : Finset String),
      queue.length + (univ \ visited).card * (relations.length + 1) + 1 ≤ fuel →
      BfsInv relations f t univ queue visited →
      ∃ r, bfsAux relations t fuel queue visited = some r ∧
        (r = none → ∀ p, ¬ Walk relations f t p) ∧
        (∀ q, r = some q → Walk relations f t q ∧
          (∀ p, Walk relations f t p → q.length ≤ p.length) ∧ (q = [] → t = f)) := by
  intro fuel
  induction fuel with
  | zero => intro queue visited hfuel _; omega
  | succ fuel ih =>
    intro queue visited hfuel inv
    rcases queue with _ | ⟨e, rest⟩
    · refine ⟨none, rfl, ?_, ?_⟩
      · intro _ p hp
        rcases inv.cover hp with h | ⟨e, he, _⟩
        · exact inv.target_unvisited h
        · exact absurd he (List.not_mem_nil e)
      · intro q hq; cases hq
    · have he_mem : e ∈ e :: rest := List.mem_cons_self e rest
      by_cases hv : e.personId ∈ visited
      · -- stale entry: skip it
        have inv' : BfsInv relations f t univ rest visited := by
          refine ⟨fun e' h => inv.mem_univ e' (List.mem_cons_of_mem _ h),
            fun e' h => inv.sound e' (List.mem_cons_of_mem _ h),
            (List.pairwise_cons.mp inv.sorted).2,
            fun e1 h1 e2 h2 =>
              inv.close e1 (List.mem_cons_of_mem _ h1) e2 (List.mem_cons_of_mem _ h2),
            ?_, ?_, inv.target_unvisited,
            fun e' h => inv.nil_start e' (List.mem_cons_of_mem _ h)⟩
          · rcases inv.start with h | ⟨hfv, e0, he0, hpid, hpath⟩
            · exact Or.inl h
            · refine Or.inr ⟨hfv, e0, ?_, hpid, hpath⟩
              rcases List.mem_cons.mp he0 with h | h
              · exact absurd (show f ∈ visited by rw [← hpid, h]; exact hv) hfv
              · exact h
          · intro z hz p hp w rid hadj
            rcases inv.frontier z hz p hp w rid hadj with h | ⟨e1, he1, hpid, hlen⟩
            · exact Or.inl h
            · rcases List.mem_cons.mp he1 with h | h
              · exact Or.inl (hpid ▸ h ▸ hv)
              · exact Or.inr ⟨e1, h, hpid, hlen⟩
        obtain ⟨r, hr, h1, h2⟩ := ih rest visited (by simp at hfuel ⊢; omega) inv'
        exact ⟨r, by rw [bfsAux, if_pos hv]; exact hr, h1, h2⟩
      · by_cases ht : e.personId = t
        · -- target dequeued: return its path
          refine ⟨some e.path, by rw [bfsAux, if_neg hv, if_pos ht], ?_, ?_⟩
          · intro h; cases h
          · intro q hq
            obtain rfl : e.path = q := Option.some_inj.mp hq
            refine ⟨ht ▸ inv.sound e he_mem, ?_, ?_⟩
            · intro p hp
              by_contra hcon
              push_neg at hcon
              exact inv.target_unvisited (inv.headMin hp hcon)
            · intro hq0
              have hf := inv.nil_start e he_mem hq0
              rw [← ht]; exact hf
        · -- fresh non-target entry: mark visited, enqueue neighbours
          have hpu : e.personId ∈ univ := inv.mem_univ e he_mem
          have hmem_sdiff : e.personId ∈ univ \ visited := Finset.mem_sdiff.mpr ⟨hpu, hv⟩
          have hcard_pos : 1 ≤ (univ \ visited).card := Finset.card_pos.mpr ⟨_, hmem_sdiff⟩
          have hcard : (univ \ insert e.personId visited).card = (univ \ visited).card - 1 := by
            rw [Finset.sdiff_insert, Finset.card_erase_of_mem hmem_sdiff]
          have e_min : ∀ p, Walk relations f e.personId p → e.path.length ≤ p.length := by
            intro p hp
            by_contra hcon
            push_neg at hcon
            exact hv (inv.headMin hp hcon)
          have hrest_len : ∀ e' ∈ rest, e.path.length ≤ e'.path.length :=
            (List.pairwise_cons.mp inv.sorted).1
          have hnews_len : ∀ e' ∈ bfsNews relations e (insert e.personId visited),
              e'.path.length = e.path.length + 1 := by
            intro e' h
            obtain ⟨w, r, _, _, rfl⟩ := mem_bfsNews.mp h
            simp
          have inv' : BfsInv relations f t univ
              (rest ++ bfsNews relations e (insert e.personId visited))
              (insert e.personId visited) := by
            refine ⟨?_, ?_, ?_, ?_, ?_, ?_, ?_, ?_⟩
            · intro e' h
              rcases List.mem_append.mp h with h | h
              · exact inv.mem_univ e' (List.mem_cons_of_mem _ h)
              · obtain ⟨w, r, hmem, _, rfl⟩ := mem_bfsNews.mp h
                rcases fst_mem_getRelatedPersons hmem with h' | h'
                · exact h' ▸ (hu r (mem_getRelatedPersons hmem)).1
                · exact h' ▸ (hu r (mem_getRelatedPersons hmem)).2
            · intro e' h
              rcases List.mem_append.mp h with h | h
              · exact inv.sound e' (List.mem_cons_of_mem _ h)
              · obtain ⟨w, r, hmem, _, rfl⟩ := mem_bfsNews.mp h
                exact (inv.sound e he_mem).snoc ⟨r, hmem, rfl⟩
            · rw [List.pairwise_append]
              refine ⟨(List.pairwise_cons.mp inv.sorted).2, ?_, ?_⟩
              · exact List.pairwise_of_forall_mem_list fun a ha b hb => by
                  rw [hnews_len a ha, hnews_len b hb]
              · intro a ha b hb
                rw [hnews_len b hb]
                exact Nat.le_trans
                  (inv.close a (List.mem_cons_of_mem _ ha) e he_mem) (Nat.le_refl _)
            · intro e1 h1 e2 h2
              rcases List.mem_append.mp h1 with h1 | h1 <;>
                rcases List.mem_append.mp h2 with h2 | h2
              · exact inv.close e1 (List.mem_cons_of_mem _ h1) e2 (List.mem_cons_of_mem _ h2)
              · have := inv.close e1 (List.mem_cons_of_mem _ h1) e he_mem
                rw [hnews_len e2 h2]; omega
              · have := hrest_len e2 h2
                rw [hnews_len e1 h1]; omega
              · rw [hnews_len e1 h1, hnews_len e2 h2]; omega
            · by_cases hfe : f = e.personId
              · exact Or.inl (hfe ▸ Finset.mem_insert_self _ _)
              · rcases inv.start with h | ⟨hfv, e0, he0, hpid, hpath⟩
                · exact Or.inl (Finset.mem_insert_of_mem h)
                · refine Or.inr ⟨by simp [Finset.mem_insert, hfe, hfv],
                    e0, ?_, hpid, hpath⟩
                  rcases List.mem_cons.mp he0 with h | h
                  · exact absurd (h ▸ hpid) (by exact fun hh => hfe hh.symm)
                  · exact List.mem_append.mpr (Or.inl h)
            · intro z hz p hp w rid hadj
              rcases Finset.mem_insert.mp hz with hz | hz
              · -- the newly visited vertex
                by_cases hw : w ∈ insert e.personId visited
                · exact Or.inl hw
                · obtain ⟨r, hmem, hid⟩ := hadj
                  refine Or.inr ⟨⟨w, e.path ++ [r.id]⟩,
                    List.mem_append.mpr (Or.inr (mem_bfsNews.mpr
                      ⟨w, r, hz ▸ hmem, hw, rfl⟩)), rfl, ?_⟩
                  have := e_min p (hz ▸ hp)
                  simp only [List.length_append, List.length_cons, List.length_nil]
                  omega
              · rcases inv.frontier z hz p hp w rid hadj with h | ⟨e1, he1, hpid, hlen⟩
                · exact Or.inl (Finset.mem_insert_of_mem h)
                · rcases List.mem_cons.mp he1 with h | h
                  · exact Or.inl (hpid ▸ h ▸ Finset.mem_insert_self _ _)
                  · exact Or.inr ⟨e1, List.mem_append.mpr (Or.inl h), hpid, hlen⟩
            · simp only [Finset.mem_insert, not_or]
              exact ⟨fun h => ht h.symm, inv.target_unvisited⟩
            · intro e' h hpath
              rcases List.mem_append.mp h with h | h
              · exact inv.nil_start e' (List.mem_cons_of_mem _ h) hpath
              · obtain ⟨w, r, _, _, rfl⟩ := mem_bfsNews.mp h
                simp at hpath
          have hfuel' : (rest ++ bfsNews relations e (insert e.personId visited)).length +
              (univ \ insert e.personId visited).card * (relations.length + 1) + 1 ≤ fuel := by
            have h1 := length_bfsNews_le relations e (insert e.personId visited)
            simp only [List.length_append, hcard] at *
            simp only [List.length_cons] at hfuel
            have h2 : ((univ \ visited).card - 1) * (relations.length + 1) + (relations.length + 1)
                = (univ \ visited).card * (relations.length + 1) := by
              have := Nat.succ_pred_eq_of_pos hcard_pos
              calc ((univ \ visited).card - 1) * (relations.length + 1) + (relations.length + 1)
                  = ((univ \ visited).card - 1 + 1) * (relations.length + 1) := by ring
                _ = (univ \ visited).card * (relations.length + 1) := by
                    rw [Nat.sub_add_cancel hcard_pos]
            omega
          obtain ⟨r, hr, h1, h2⟩ := ih _ _ hfuel' inv'
          exact ⟨r, by rw [bfsAux, if_neg hv, if_neg ht]; exact hr, h1, h2⟩

theorem self_mem_univIds (fromId : String) (relations : List Relation) :
    fromId ∈ univIds fromId relations :=
  Finset.mem_insert_self _ _

theorem endpoints_mem_univIds (fromId : String) {relations : List Relation}
    {r : Relation} (h : r ∈ relations) :
    r.personAId ∈ univIds fromId relations ∧ r.personBId ∈ univIds fromId relations := by
  have : r.personAId ∈ relations.foldr
        (fun r s => insert r.personAId (insert r.personBId s)) (∅ : Finset String) ∧
      r.personBId ∈ relations.foldr
        (fun r s => insert r.personAId (insert r.personBId s)) (∅ : Finset String) := by
    induction relations with
    | nil => cases h
    | cons r' rest ih =>
      rcases List.mem_cons.mp h with h | h
      · subst h
        exact ⟨Finset.mem_insert_self _ _,
          Finset.mem_insert_of_mem (Finset.mem_insert_self _ _)⟩
      · obtain ⟨h1, h2⟩ := ih h
        exact ⟨Finset.mem_insert_of_mem (Finset.mem_insert_of_mem h1),
          Finset.mem_insert_of_mem (Finset.mem_insert_of_mem h2)⟩
  exact ⟨Finset.mem_insert_of_mem this.1, Finset.mem_insert_of_mem this.2⟩

/-- The BFS invariant holds in `findRelationPath`'s initial state. -/
theorem bfsInv_init (relations : List Relation) (f t : String) :
    BfsInv relations f t (univIds f relations) [⟨f, []⟩] ∅ := by
  refine ⟨?_, ?_, ?_, ?_, ?_, ?_, ?_, ?_⟩
  · intro e he
    rcases List.mem_singleton.mp he with rfl
    exact self_mem_univIds f relations
  · intro e he
    rcases List.mem_singleton.mp he with rfl
    exact Walk.nil f
  · exact List.pairwise_singleton _ _
  · intro e1 h1 e2 h2
    rcases List.mem_singleton.mp h1 with rfl
    rcases List.mem_singleton.mp h2 with rfl
    omega
  · exact Or.inr ⟨Finset.not_mem_empty f, ⟨f, []⟩, List.mem_singleton_self _, rfl, rfl⟩
  · intro z hz
    exact absurd hz (Finset.not_mem_empty z)
  · exact Finset.not_mem_empty t
  · intro e he _
    rcases List.mem_singleton.mp he with rfl
    rfl

/-- The BFS run inside `findRelationPath` never exhausts its fuel and
yields a correct answer. -/
theorem bfsAux_run (relations : List Relation) (f t : String) :
    ∃ r, bfsAux relations t (initFuel f relations) [⟨f, []⟩] ∅ = some r ∧
      (r = none → ∀ p, ¬ Walk relations f t p) ∧
      (∀ q, r = some q → Walk relations f t q ∧
        (∀ p, Walk relations f t p → q.length ≤ p.length) ∧ (q = [] → t = f)) := by
  refine bfsAux_correct relations f t (univIds f relations)
    (fun r hr => endpoints_mem_univIds f hr) _ _ _ ?_ (bfsInv_init relations f t)
  simp only [List.length_singleton, initFuel, Finset.sdiff_empty]
  omega

/-- Full functional specification of `findRelationPath`: the empty path
is returned exactly for `fromId = toId`, every returned path is a walk
of minimal length, a path is returned exactly for connected pairs, and
`none` is returned exactly for unreachable ones. -/
theorem findRelationPath_spec (relations : List Relation) (f t : String) :
    (findRelationPath relations f t = some [] ↔ f = t)
    ∧ (∀ q, findRelationPath relations f t = some q →
        Walk relations f t q ∧ ∀ p, Walk relations f t p → q.length ≤ p.length)
    ∧ ((∃ p, Walk relations f t p) ↔ ∃ q, findRelationPath relations f t = some q)
    ∧ (findRelationPath relations f t = none ↔ ¬ ∃ p, Walk relations f t p) := by
  by_cases hft : f = t
  · subst hft
    have heq : findRelationPath relations f f = some [] := by
      rw [findRelationPath, if_pos rfl]
    refine ⟨by simp [heq], ?_, ?_, ?_⟩
    · intro q hq
      rw [heq] at hq
      obtain rfl : ([] : List String) = q := Option.some_inj.mp hq
      exact ⟨Walk.nil f, fun p _ => Nat.zero_le _⟩
    · exact ⟨fun _ => ⟨[], heq⟩, fun _ => ⟨[], Walk.nil f⟩⟩
    · simp [heq]
      exact ⟨[], Walk.nil f⟩
  · obtain ⟨r, hr, h1, h2⟩ := bfsAux_run relations f t
    have heq : findRelationPath relations f t = r := by
      rw [findRelationPath, if_neg hft, hr]
    refine ⟨?_, ?_, ?_, ?_⟩
    · constructor
      · intro h
        exact ((h2 [] (heq ▸ h)).2.2 rfl).symm
      · intro h
        exact absurd h hft
    · intro q hq
      obtain ⟨hw, hmin, _⟩ := h2 q (heq ▸ hq)
      exact ⟨hw, hmin⟩
    · constructor
      · rintro ⟨p, hp⟩
        rcases r with _ | q
        · exact absurd hp (h1 rfl p)
        · exact ⟨q, heq⟩
      · rintro ⟨q, hq⟩
        exact ⟨q, (h2 q (heq ▸ hq)).1⟩
    · constructor
      · rintro hn ⟨p, hp⟩
        exact h1 (heq ▸ hn) p hp
      · intro hn
        rcases r with _ | q
        · exact heq
        · exact absurd ⟨q, (h2 q rfl).1⟩ hn

/-- Every relation id in a returned path is the id of a listed relation. -/
theorem findRelationPath_ids (relations : List Relation) (f t : String)
    {p : List String} (h : findRelationPath relations f t = some p) :
    ∀ rid ∈ p, ∃ r ∈ relations, r.id = rid :=
  ((findRelationPath_spec relations f t).2.1 p h).1.ids_mem

/-! ## Graph builder (the `AddressingEngine` constructor)

JS objects keyed by person id are modelled as association lists; a key
is created on demand by the constructor's `if (!this.tree[x])` guards. -/

/-- One adjacency record of the derived tree. -/
structure TreeNode where
  parents : List String := []
  children : List String := []
  spouses : List String := []
deriving DecidableEq, Repr

/-- The derived `tree` object: person id to adjacency record. -/
abbrev Tree := List (String × TreeNode)

/-- JS property read `tree[id]` (`undefined` for a missing key). -/
def treeGet : Tree → String → Option TreeNode
  | [], _ => none
  | e :: rest, id => if e.1 = id then some e.2 else treeGet rest id

/-- In-place mutation of a record, `tree[id].children.push(...)` style. -/
def treeModify : Tree → String → (TreeNode → TreeNode) → Tree
  | [], _, _ => []
  | e :: rest, id, g =>
    (if e.1 = id then (e.1, g e.2) else e) :: treeModify rest id g

/-- JS property assignment `tree[id] = n`: overwrite or append. -/
def treeSet (tree : Tree) (id : String) (n : TreeNode) : Tree :=
  match treeGet tree id with
  | some _ => treeModify tree id fun _ => n
  | none => tree ++ [(id, n)]

/-- The constructor's `if (!this.tree[x]) this.tree[x] = {...empty}` guard. -/
def treeEnsure (tree : Tree) (id : String) : Tree :=
  match treeGet tree id with
  | some _ => tree
  | none => tree ++ [(id, {})]

/-- `persons.forEach(p => { this.tree[p.id] = {...empty} })`. -/
def treeInit (persons : List Person) : Tree :=
  persons.foldl (fun t p => treeSet t p.id {}) []

/-- Link a PARENT edge: ensure both records, then
`tree[pid].children.push(cid); tree[cid].parents.push(pid)`. -/
def linkParentChild (tree : Tree) (pid cid : String) : Tree :=
  treeModify
    (treeModify (treeEnsure (treeEnsure tree pid) cid) pid
      fun n => { n with children := n.children ++ [cid] })
    cid fun n => { n with parents := n.parents ++ [pid] }

/-- Link a SPOUSE edge in both directions. -/
def linkSpouse (tree : Tree) (a b : String) : Tree :=
  treeModify
    (treeModify (treeEnsure (treeEnsure tree a) b) a
      fun n => { n with spouses := n.spouses ++ [b] })
    b fun n => { n with spouses := n.spouses ++ [a] }

/-- The body of the constructor's `relations.forEach`: direct
`parentId`/`childId` link when both are present, else birth-year
inference, else the `personA`-as-parent fallback; SPOUSE adds a
symmetric edge; SIBLING and CUSTOM leave the tree untouched. -/
def processRelation (persons : List Person) (tree : Tree) (r : Relation) : Tree :=
  if r.type = .parent then
    if strTruthy r.parentId && strTruthy r.childId then
      linkParentChild tree (r.parentId.getD "") (r.childId.getD "")
    else
      match persons.find? fun p => p.id == r.personAId,
            persons.find? fun p => p.id == r.personBId with
      | some a, some b =>
        match a.birthYear, b.birthYear with
        | some ya, some yb =>
          if ya < yb then linkParentChild tree a.id b.id
          else linkParentChild tree b.id a.id
        | _, _ => linkParentChild tree r.personAId r.personBId
      | _, _ => linkParentChild tree r.personAId r.personBId
  else if r.type = .spouse then
    linkSpouse tree r.personAId r.personBId
  else tree

/-- The constructor's tree construction (the branch taken when no
prebuilt `tree` argument is supplied). -/
def buildTree (persons : List Person) (relations : List Relation) : Tree :=
  relations.foldl (processRelation persons) (treeInit persons)

/-- The derived `clusterMap` object: family id to member ids. -/
abbrev ClusterMap := List (String × List String)

def cmGet : ClusterMap → String → Option (List String)
  | [], _ => none
  | e :: rest, id => if e.1 = id then some e.2 else cmGet rest id

def cmEnsure (m : ClusterMap) (id : String) : ClusterMap :=
  match cmGet m id with
  | some _ => m
  | none => m ++ [(id, [])]

def cmPush (m : ClusterMap) (id x : String) : ClusterMap :=
  m.map fun e => if e.1 = id then (e.1, e.2 ++ [x]) else e

/-- `if (!map[fid].includes(x)) map[fid].push(x)`. -/
def cmPushNew (m : ClusterMap) (id x : String) : ClusterMap :=
  if ((cmGet m id).getD []).contains x then m else cmPush m id x

/-- The constructor's cluster-map construction (the branch taken when no
prebuilt `clusterMap` argument is supplied). -/
def buildClusterMap (persons : List Person) (relations : List Relation) : ClusterMap :=
  let m1 := persons.foldl
    (fun m p => p.families.foldl (fun m fid => cmPush (cmEnsure m fid) fid p.id) m) []
  relations.foldl
    (fun m r =>
      if strTruthy r.familyId then
        let fid := r.familyId.getD ""
        cmPushNew (cmPushNew (cmEnsure m fid) fid r.personAId) fid r.personBId
      else m) m1

/-! ## Step classifier (`analyzeRelationPath`'s two loops) -/

/-- `persons.find(p => p.id === id)`. -/
def findPerson (persons : List Person) (id : String) : Option Person :=
  persons.find? fun p => p.id == id

/-- `relation.personAId === currentPersonId ? personBId : personAId`. -/
def nextPerson (r : Relation) (cur : String) : String :=
  if r.personAId = cur then r.personBId else r.personAId

/-- The endpoint reached after walking the resolved relation list from
`cur` (the final value of `currentPersonId`). -/
def chainEnd : List Relation → String → String
  | [], cur => cur
  | r :: rest, cur => chainEnd rest (nextPerson r cur)

/-- The per-step summary consumed by the title resolver. -/
structure StepSummary where
  type : RelationType
  isOlder : Option Bool := none
deriving DecidableEq, Repr

/-- The enrichment loop: per step, the relation type plus (for SIBLING
steps with both birth years known) whether the next person is older. -/
def buildSteps (persons : List Person) : List Relation → String → List StepSummary
  | [], _ => []
  | r :: rest, cur =>
    let nxt := nextPerson r cur
    let isOlder : Option Bool :=
      if r.type = .sibling then
        match findPerson persons cur, findPerson persons nxt with
        | some c, some n =>
          match c.birthYear, n.birthYear with
          | some cy, some ny => some (decide (ny < cy))
          | _, _ => none
        | _, _ => none
      else none
    ⟨r.type, isOlder⟩ :: buildSteps persons rest nxt

/-- `determineLineage`: father's line is paternal, otherwise maternal.
The source's `user` argument is taken but not consulted. -/
def determineLineage (parent : Person) (_user : Person) : LineageType :=
  if parent.gender = .male then .paternal else .maternal

/-- The generation/lineage loop.  On a PARENT step the generation goes
up when `relation.childId` equals the current person, down otherwise;
lineage is assigned only on the first step, only for an upward PARENT
step, and only when both the parent and the user resolve to persons. -/
def genLineageAux (persons : List Person) (userId : String) :
    List Relation → String → Int → Option LineageType → Bool → Int × Option LineageType
  | [], _, gen, lin, _ => (gen, lin)
  | r :: rest, cur, gen, lin, isFirst =>
    let nxt := nextPerson r cur
    let gen' : Int :=
      if r.type = .parent then
        if r.childId = some cur then gen + 1 else gen - 1
      else gen
    let lin' : Option LineageType :=
      if isFirst ∧ r.type = .parent ∧ r.childId = some cur then
        match findPerson persons nxt with
        | some parent =>
          match findPerson persons userId with
          | some user => some (determineLineage parent user)
          | none => lin
        | none => lin
      else lin
    genLineageAux persons userId rest nxt gen' lin' false

/-- Generation offset and lineage of a resolved relation path. -/
def computeGenLineage (persons : List Person) (userId : String)
    (rels : List Relation) : Int × Option LineageType :=
  genLineageAux persons userId rels userId 0 none true

/-! ## Title vocabulary (`AddressingTitle` enum underlying strings) -/

namespace AddressingTitle

def BA : String := "Ba"

def ME : String := "Mẹ"

def BAC_TRAI : String := "Bác trai"

def BAC_GAI : String := "Bác gái"

def CHU : String := "Chú"

def CO : String := "Cô"

def CAU : String := "Cậu"

def DI : String := "Dì"

def THIM : String := "Thím"

def DUONG : String := "Dượng"

def MO : String := "Mợ"

def ANH_HO : String := "Anh họ"

def CHI_HO : String := "Chị họ"

def EM_HO : String := "Em họ"

def ANH : String := "Anh"

def CHI : String := "Chị"

def EM : String := "Em"

def CON : String := "Con"

def CHAU : String := "Cháu"

def ONG_NOI : String := "Ông nội"

def BA_NOI : String := "Bà nội"

def ONG_NGOAI : String := "Ông ngoại"

def BA_NGOAI : String := "Bà ngoại"

def UNKNOWN : String := "?"

end AddressingTitle

/-- `Object.values(AddressingTitle)`, in declaration order. -/
def enumValues : List String :=
  [AddressingTitle.BA, AddressingTitle.ME, AddressingTitle.BAC_TRAI,
   AddressingTitle.BAC_GAI, AddressingTitle.CHU, AddressingTitle.CO,
   AddressingTitle.CAU, AddressingTitle.DI, AddressingTitle.THIM,
   AddressingTitle.DUONG, AddressingTitle.MO, AddressingTitle.ANH_HO,
   AddressingTitle.CHI_HO, AddressingTitle.EM_HO, AddressingTitle.ANH,
   AddressingTitle.CHI, AddressingTitle.EM, AddressingTitle.CON,
   AddressingTitle.CHAU, AddressingTitle.ONG_NOI, AddressingTitle.BA_NOI,
   AddressingTitle.ONG_NGOAI, AddressingTitle.BA_NGOAI, AddressingTitle.UNKNOWN]

/-! ## Greeting and confidence annotator -/

/-- The static greeting table keyed by enumerated title. -/
def greetingsTable : List (String × List String) :=
  [(AddressingTitle.BA, ["Con chào Ba ạ", "Ba có khỏe không ạ?"]),
   (AddressingTitle.ME, ["Con chào Mẹ ạ", "Mẹ có khỏe không ạ?"]),
   (AddressingTitle.BAC_TRAI, ["Cháu chào Bác ạ", "Cháu nhờ Bác giúp..."]),
   (AddressingTitle.BAC_GAI, ["Cháu chào Bác ạ", "Cháu nhờ Bác giúp..."]),
   (AddressingTitle.CHU, ["Cháu chào Chú ạ", "Chú có khỏe không ạ?"]),
   (AddressingTitle.CO, ["Cháu chào Cô ạ", "Cô có khỏe không ạ?"]),
   (AddressingTitle.CAU, ["Cháu chào Cậu ạ", "Cậu có khỏe không ạ?"]),
   (AddressingTitle.DI, ["Cháu chào Dì ạ", "Dì có khỏe không ạ?"]),
   (AddressingTitle.THIM, ["Cháu chào Thím ạ", "Thím có khỏe không ạ?"]),
   (AddressingTitle.DUONG, ["Cháu chào Dượng ạ", "Dượng có khỏe không ạ?"]),
   (AddressingTitle.MO, ["Cháu chào Mợ ạ", "Mợ có khỏe không ạ?"]),
   (AddressingTitle.ANH_HO, ["Em chào Anh họ", "Anh họ có khỏe không?"]),
   (AddressingTitle.CHI_HO, ["Em chào Chị họ", "Chị họ có khỏe không?"]),
   (AddressingTitle.EM_HO, ["Anh/Chị chào Em họ", "Em họ có khỏe không?"]),
   (AddressingTitle.ANH, ["Em chào Anh", "Anh có khỏe không?"]),
   (AddressingTitle.CHI, ["Em chào Chị", "Chị có khỏe không?"]),
   (AddressingTitle.EM, ["Anh/Chị chào Em", "Em có khỏe không?"]),
   (AddressingTitle.CON, ["Ba/Mẹ chào con", "Con có khỏe không?"]),
   (AddressingTitle.CHAU, ["Ông/Bà chào cháu", "Cháu có khỏe không?"]),
   (AddressingTitle.ONG_NOI, ["Cháu chào Ông ạ", "Ông có khỏe không ạ?"]),
   (AddressingTitle.BA_NOI, ["Cháu chào Bà ạ", "Bà có khỏe không ạ?"]),
   (AddressingTitle.ONG_NGOAI, ["Cháu chào Ông ạ", "Ông có khỏe không ạ?"]),
   (AddressingTitle.BA_NGOAI, ["Cháu chào Bà ạ", "Bà có khỏe không ạ?"]),
   (AddressingTitle.UNKNOWN, [])]

/-- `generateGreetingExamples`: custom (non-enum) titles get a single
generic greeting (none when blank); enum titles use the static table. -/
def generateGreetingExamples (title : String) : List String :=
  if ¬ enumValues.contains title then
    if title.trim = "" then [] else ["Xin chào " ++ title]
  else ((greetingsTable.find? fun e => e.1 == title).map (·.2)).getD []

/-- `explanation.includes(pat)` as substring containment. -/
def containsSubstr (s pat : String) : Bool :=
  decide (pat.toList <:+: s.toList)

/-- `calculateConfidence`: 0.0 for the unknown title, 0.3 for an
explanation flagged "Không xác định", 0.6 for one containing a literal
question mark, 0.9 otherwise. -/
def calculateConfidence (title explanation : String) : Rat :=
  if title = AddressingTitle.UNKNOWN then 0
  else if containsSubstr explanation "Không xác định" then 3 / 10
  else if containsSubstr explanation "?" then 6 / 10
  else 9 / 10

/-- `createAddressingInfo`: attach greetings and confidence to a
resolved title. -/
def createAddressingInfo (title explanation : String)
    (lineage : Option LineageType) (generation : Int) : AddressingInfo :=
  { title := title
    explanation := explanation
    greetingExamples := generateGreetingExamples title
    lineage := lineage
    generation := generation
    confidence := calculateConfidence title explanation }

/-! ## Title resolver -/

/-- `analyzeComplexRelation`: the multi-step rule table, first match
wins; `lineage === PATERNAL` sends `null` lineage to the maternal arm,
exactly as in the source. -/
def analyzeComplexRelation (steps : List StepSummary) (generation : Int)
    (lineage : Option LineageType) (targetPerson : Person) : AddressingInfo :=
  if generation = 1 ∧ steps.map (·.type) = [.parent, .sibling] then
    if lineage = some .paternal then
      if targetPerson.gender = .male then
        createAddressingInfo AddressingTitle.CHU "Em trai của Ba" lineage generation
      else
        createAddressingInfo AddressingTitle.CO "Em gái của Ba" lineage generation
    else
      if targetPerson.gender = .male then
        createAddressingInfo AddressingTitle.CAU "Em trai của Mẹ" lineage generation
      else
        createAddressingInfo AddressingTitle.DI "Em gái của Mẹ" lineage generation
  else if generation = 1 ∧ steps.map (·.type) = [.parent, .sibling, .spouse] then
    if lineage = some .paternal then
      if targetPerson.gender = .female then
        createAddressingInfo AddressingTitle.THIM "Vợ của Chú" lineage generation
      else
        createAddressingInfo AddressingTitle.DUONG "Chồng của Cô" lineage generation
    else
      if targetPerson.gender = .female then
        createAddressingInfo AddressingTitle.MO "Vợ của Cậu" lineage generation
      else
        createAddressingInfo AddressingTitle.DUONG "Chồng của Dì" lineage generation
  else if generation = 0 ∧ steps.map (·.type) = [.parent, .sibling, .parent] then
    createAddressingInfo AddressingTitle.ANH_HO "Anh/chị/em họ" lineage generation
  else if generation = -1 then
    createAddressingInfo AddressingTitle.CHAU "Cháu" lineage generation
  else
    createAddressingInfo AddressingTitle.UNKNOWN "Không xác định được quan hệ"
      lineage generation

/-- `determineAddressingTitle`: single-step direct relations, with
CUSTOM single steps and all longer paths falling through to
`analyzeComplexRelation`. -/
def determineAddressingTitle (steps : List StepSummary) (generation : Int)
    (lineage : Option LineageType) (targetPerson : Person) : AddressingInfo :=
  match steps with
  | [step] =>
    if step.type = .parent then
      if generation > 0 then
        if targetPerson.gender = .male then
          createAddressingInfo AddressingTitle.BA "Cha của bạn" lineage generation
        else
          createAddressingInfo AddressingTitle.ME "Mẹ của bạn" lineage generation
      else
        createAddressingInfo AddressingTitle.CON "Con của bạn" lineage generation
    else if step.type = .spouse then
      if targetPerson.gender = .male then
        createAddressingInfo AddressingTitle.ANH "Chồng của bạn" lineage generation
      else
        createAddressingInfo AddressingTitle.CHI "Vợ của bạn" lineage generation
    else if step.type = .sibling then
      createAddressingInfo AddressingTitle.ANH "Anh/chị/em của bạn" lineage generation
    else
      analyzeComplexRelation steps generation lineage targetPerson
  | _ => analyzeComplexRelation steps generation lineage targetPerson

/-- Resolve a relation-id path to relations
(`this.relations.find(r => r.id === relationId)!` per step; `none`
models the runtime failure of the non-null assertion). -/
def resolvePath (relations : List Relation) (path : List String) :
    Option (List Relation) :=
  path.mapM fun rid => relations.find? fun r => r.id == rid

/-- The addressing record returned for the reference person itself. -/
def selfInfo : AddressingInfo :=
  { title := AddressingTitle.UNKNOWN
    explanation := "Bạn"
    greetingExamples := []
    lineage := none
    generation := 0
    confidence := 1 }

/-- The addressing record returned when no relation path is found. -/
def unknownInfo : AddressingInfo :=
  { title := AddressingTitle.UNKNOWN
    explanation := "Không xác định được quan hệ"
    greetingExamples := []
    lineage := none
    generation := 0
    confidence := 0 }

/-- `analyzeRelationPath`: classify the path, prefer a stored label on
the last relation (applying when `subjectId` is unset — short-circuit,
the target need not resolve — or equals the target's id), otherwise run
the rule table on the resolved target person.  `none` models the
source's runtime failures on unresolvable ids. -/
def analyzeRelationPath (persons : List Person) (relations : List Relation)
    (userId : String) (relationPath : List String) : Option AddressingInfo :=
  if relationPath = [] then some selfInfo
  else
    match resolvePath relations relationPath with
    | none => none
    | some rels =>
      let steps := buildSteps persons rels userId
      let gl := computeGenLineage persons userId rels
      let targetId := chainEnd rels userId
      match rels.getLast? with
      | none => none
      | some lastR =>
        if strTruthy lastR.label then
          if ¬ strTruthy lastR.subjectId then
            some (createAddressingInfo (lastR.label.getD "")
              ("Quan hệ trực tiếp: " ++ lastR.label.getD "") gl.2 gl.1)
          else
            match findPerson persons targetId with
            | none => none
            | some tp =>
              if lastR.subjectId = some tp.id then
                some (createAddressingInfo (lastR.label.getD "")
                  ("Quan hệ trực tiếp: " ++ lastR.label.getD "") gl.2 gl.1)
              else some (determineAddressingTitle steps gl.1 gl.2 tp)
        else
          match findPerson persons targetId with
          | none => none
          | some tp => some (determineAddressingTitle steps gl.1 gl.2 tp)

/-- `calculateAddressing`: self-query short-circuit, unreachable targets
mapped to the unknown record, otherwise path analysis. -/
def calculateAddressing (persons : List Person) (relations : List Relation)
    (userId personId : String) : Option AddressingInfo :=
  if personId = userId then some selfInfo
  else
    match findRelationPath relations userId personId with
    | none => some unknownInfo
    | some [] => some unknownInfo
    | some path => analyzeRelationPath persons relations userId path

/-! ## The engine object -/

/-- The `AddressingEngine` instance state. -/
structure AddressingEngine where
  persons : List Person
  relations : List Relation
  userId : String
  tree : Tree
  clusterMap : ClusterMap

/-- The constructor, with its two optional precomputed-structure
arguments. -/
def AddressingEngine.create (persons : List Person) (relations : List Relation)
    (userId : String) (prebuiltTree : Option Tree := none)
    (prebuiltClusterMap : Option ClusterMap := none) : AddressingEngine :=
  { persons := persons
    relations := relations
    userId := userId
    tree := prebuiltTree.getD (buildTree persons relations)
    clusterMap := prebuiltClusterMap.getD (buildClusterMap persons relations) }

/-- Method `calculateAddressing`. -/
def AddressingEngine.calculateAddressing (E : AddressingEngine)
    (personId : String) : Option AddressingInfo :=
  FamilyTree.calculateAddressing E.persons E.relations E.userId personId

/-- Method `getRelationPath`. -/
def AddressingEngine.getRelationPath (E : AddressingEngine)
    (fromId toId : String) : Option (List String) :=
  findRelationPath E.relations fromId toId

/-! ## Observations on the derived tree -/

def childrenOf (tree : Tree) (id : String) : List String :=
  ((treeGet tree id).getD {}).children

def parentsOf (tree : Tree) (id : String) : List String :=
  ((treeGet tree id).getD {}).parents

theorem treeGet_treeModify_self (t : Tree) (id : String) (g : TreeNode → TreeNode) :
    treeGet (treeModify t id g) id = (treeGet t id).map g := by
  induction t with
  | nil => rfl
  | cons e rest ih =>
    by_cases h : e.1 = id
    · simp [treeModify, treeGet, h]
    · simp [treeModify, treeGet, h, ih]

theorem treeGet_treeModify_other (t : Tree) (id id' : String) (g : TreeNode → TreeNode)
    (h : id' ≠ id) : treeGet (treeModify t id g) id' = treeGet t id' := by
  induction t with
  | nil => rfl
  | cons e rest ih =>
    by_cases h2 : e.1 = id'
    · have h1 : ¬ e.1 = id := by rw [h2]; exact h
      simp [treeModify, treeGet, h1, h2, h]
    · by_cases h1 : e.1 = id
      · simp [treeModify, treeGet, h1, h2, ih, Ne.symm h]
      · simp [treeModify, treeGet, h1, h2, ih]

theorem treeGet_append_of_none (t1 t2 : Tree) (id : String)
    (h : treeGet t1 id = none) : treeGet (t1 ++ t2) id = treeGet t2 id := by
  induction t1 with
  | nil => rfl
  | cons e rest ih =>
    by_cases h1 : e.1 = id
    · rw [treeGet, if_pos h1] at h; cases h
    · rw [treeGet, if_neg h1] at h
      simpa [treeGet, h1] using ih h

theorem treeGet_treeEnsure_self (t : Tree) (id : String) :
    ∃ n, treeGet (treeEnsure t id) id = some n := by
  unfold treeEnsure
  cases h : treeGet t id with
  | some n => exact ⟨n, h⟩
  | none =>
    refine ⟨{}, ?_⟩
    rw [treeGet_append_of_none _ _ _ h]
    simp [treeGet]

theorem treeGet_append (t1 t2 : Tree) (id : String) :
    treeGet (t1 ++ t2) id =
      match treeGet t1 id with
      | some n => some n
      | none => treeGet t2 id := by
  induction t1 with
  | nil => rfl
  | cons e rest ih =>
    by_cases h1 : e.1 = id
    · simp [treeGet, h1]
    · simp [treeGet, h1, ih]

theorem treeGet_treeEnsure_other (t : Tree) (id id' : String) (h : id' ≠ id) :
    treeGet (treeEnsure t id) id' = treeGet t id' := by
  unfold treeEnsure
  cases heq : treeGet t id with
  | some n => rfl
  | none =>
    rw [treeGet_append]
    cases h2 : treeGet t id' with
    | some n' => rfl
    | none => simp [treeGet, Ne.symm h]

/-- `linkParentChild` records `cid` among `pid`'s children and `pid`
among `cid`'s parents, on any starting tree. -/
theorem linkParentChild_mem (t : Tree) (pid cid : String) :
    cid ∈ childrenOf (linkParentChild t pid cid) pid ∧
    pid ∈ parentsOf (linkParentChild t pid cid) cid := by
  unfold linkParentChild childrenOf parentsOf
  obtain ⟨n, hn⟩ : ∃ n, treeGet (treeEnsure (treeEnsure t pid) cid) pid = some n := by
    by_cases h : pid = cid
    · subst h; exact treeGet_treeEnsure_self _ _
    · rw [treeGet_treeEnsure_other _ _ _ h]
      exact treeGet_treeEnsure_self _ _
  by_cases hpc : pid = cid
  · subst hpc
    rw [treeGet_treeModify_self, treeGet_treeModify_self, hn]
    simp
  · obtain ⟨n', hn'⟩ : ∃ n', treeGet (treeEnsure (treeEnsure t pid) cid) cid = some n' :=
      treeGet_treeEnsure_self _ _
    constructor
    · rw [treeGet_treeModify_other _ _ _ _ hpc, treeGet_treeModify_self, hn]
      simp
    · rw [treeGet_treeModify_self,
        treeGet_treeModify_other _ _ _ _ (fun h => hpc h.symm), hn']
      simp

/-! ## Claim-worded specification functions

These restate, in the spec's own words, the behaviour claimed of the
step classifier and confidence annotator; the claim theorems compare
them with the source-derived functions. -/

/-- Modelled from the spec (C2): the cumulative generation offset is
the sum, over PARENT steps, of `+1` when the relation's `childId`
equals the current person and `-1` when traversal moves from parent to
child. -/
def genSpecAux : List Relation → String → Int
  | [], _ => 0
  | r :: rest, cur =>
    (if r.type = .parent then if r.childId = some cur then 1 else -1 else 0)
      + genSpecAux rest (nextPerson r cur)

/-- Modelled from the spec (C2): lineage comes only from the first
step, only when it is an upward PARENT step whose parent and user both
resolve: paternal for a male parent, maternal otherwise. -/
def lineageSpec (persons : List Person) (userId : String) :
    List Relation → Option LineageType
  | [] => none
  | r :: _ =>
    if r.type = .parent ∧ r.childId = some userId then
      match findPerson persons (nextPerson r userId), findPerson persons userId with
      | some parent, some _ =>
        some (if parent.gender = .male then .paternal else .maternal)
      | _, _ => none
    else none

/-- Modelled from the spec (C6): unknown title gives 0.0, a "Không xác
định" explanation 0.3, an explanation containing a question mark 0.6,
anything else 0.9. -/
def confSpec (title explanation : String) : Rat :=
  if title = AddressingTitle.UNKNOWN then 0
  else if containsSubstr explanation "Không xác định" then 3 / 10
  else if containsSubstr explanation "?" then 6 / 10
  else 9 / 10

/-! ## Concrete fixtures for witnesses and counterexamples -/

def personU : Person := { id := "U", gender := .male }

def personF : Person := { id := "F", gender := .male }

def personC : Person := { id := "C", gender := .male }

def personX : Person := { id := "X", gender := .female }

def personOld : Person := { id := "P", birthYear := some 1950 }

def personYoung : Person := { id := "Q", birthYear := some 1980 }

/-- U's father F, with explicit direction fields. -/
def relFU : Relation :=
  { id := "r1", type := .parent, personAId := "F", personBId := "U",
    parentId := some "F", childId := some "U" }

/-- F's sibling C. -/
def relFC : Relation :=
  { id := "r2", type := .sibling, personAId := "F", personBId := "C" }

/-- A direct relation carrying a stored label and no `subjectId`. -/
def relLabel : Relation :=
  { id := "r3", type := .custom, personAId := "U", personBId := "X",
    label := some "Sư phụ" }

/-- A PARENT relation without direction fields between two persons with
known birth years. -/
def relPQ : Relation :=
  { id := "r4", type := .parent, personAId := "P", personBId := "Q" }

/-- A PARENT relation whose `personBId` is not in the person list. -/
def relDangling : Relation :=
  { id := "r5", type := .parent, personAId := "U", personBId := "X" }

/-- A cyclic pair: A parent-of B and B parent-of A. -/
def relCycAB : Relation :=
  { id := "c1", type := .parent, personAId := "A", personBId := "B",
    parentId := some "A", childId := some "B" }

def relCycBA : Relation :=
  { id := "c2", type := .parent, personAId := "B", personBId := "A",
    parentId := some "B", childId := some "A" }

/-- Two parallel edges between A and B, for the FIFO tie-break. -/
def relTie1 : Relation :=
  { id := "t1", type := .custom, personAId := "A", personBId := "B" }

def relTie2 : Relation :=
  { id := "t2", type := .custom, personAId := "A", personBId := "B" }

/-! ## Step-classifier lemmas -/

/-- After the first step the lineage argument is threaded through
unchanged, and the generation accumulates the per-step deltas. -/
theorem genLineageAux_false (persons : List Person) (userId : String) :
    ∀ (rels : List Relation) (cur : String) (g : Int) (l : Option LineageType),
      genLineageAux persons userId rels cur g l false = (g + genSpecAux rels cur, l) := by
  intro rels
  induction rels with
  | nil => intro cur g l; simp [genLineageAux, genSpecAux]
  | cons r rest ih =>
    intro cur g l
    simp only [genLineageAux]
    rw [ih]
    simp only [Prod.mk.injEq]
    constructor
    · simp only [genSpecAux]
      by_cases hp : r.type = RelationType.parent
      · by_cases hc : r.childId = some cur
        · simp only [hp, hc, if_pos]; omega
        · simp only [hp, if_pos, if_neg hc]; omega
      · simp only [if_neg hp]; omega
    · simp

/-- The step classifier on a whole path from the reference person. -/
theorem computeGenLineage_eq (persons : List Person) (userId : String)
    (rels : List Relation) :
    computeGenLineage persons userId rels =
      (genSpecAux rels userId, lineageSpec persons userId rels) := by
  cases rels with
  | nil => rfl
  | cons r rest =>
    rw [computeGenLineage]
    simp only [genLineageAux]
    rw [genLineageAux_false]
    simp only [Prod.mk.injEq]
    constructor
    · simp only [genSpecAux]
      by_cases hp : r.type = RelationType.parent
      · by_cases hc : r.childId = some userId
        · simp only [hp, hc, if_pos]; omega
        · simp only [hp, if_pos, if_neg hc]; omega
      · simp only [if_neg hp]
    · rw [lineageSpec]
      by_cases hcond : r.type = RelationType.parent ∧ r.childId = some userId
      · rw [if_pos (by simp [hcond.1, hcond.2]), if_pos hcond]
        cases findPerson persons (nextPerson r userId) with
        | none => rfl
        | some parent =>
          cases findPerson persons userId with
          | none => rfl
          | some u => simp [determineLineage]
      · rw [if_neg (by simpa using hcond), if_neg hcond]

/-! ## Claims -/

/-- **C1.** For every snapshot and pair of person ids,
`findRelationPath` returns the empty path exactly when `fromId` equals
`toId`; every returned path is a walk in the undirected projection of
the relations whose length is the minimum relation-edge distance (the
particular minimal path is determined, deterministically, by the FIFO
queue and the relation list's original edge order, `findRelationPath`
being a function of the snapshot); a path is returned exactly for
connected pairs and `none` exactly when the target is unreachable. -/
theorem C1_shortest_path (relations : List Relation) (fromId toId : String) :
    (findRelationPath relations fromId toId = some [] ↔ fromId = toId)
    ∧ (∀ q, findRelationPath relations fromId toId = some q →
        Walk relations fromId toId q ∧
          ∀ p, Walk relations fromId toId p → q.length ≤ p.length)
    ∧ ((∃ p, Walk relations fromId toId p) ↔
        ∃ q, findRelationPath relations fromId toId = some q)
    ∧ (findRelationPath relations fromId toId = none ↔
        ¬ ∃ p, Walk relations fromId toId p) :=
  findRelationPath_spec relations fromId toId

/-- Witness for C1 on a two-edge tie: both `t1` and `t2` connect A and
B; the minimal length is 1 and the path through the first-listed
relation wins the tie. -/
theorem C1_shortest_path_witness :
    findRelationPath [relTie1, relTie2] "A" "B" = some ["t1"]
    ∧ Walk [relTie1, relTie2] "A" "B" ["t2"]
    ∧ (∀ p, Walk [relTie1, relTie2] "A" "B" p → 1 ≤ p.length) := by
  have h := (C1_shortest_path [relTie1, relTie2] "A" "B").2.1 ["t1"] (by decide)
  refine ⟨by decide, ?_, ?_⟩
  · exact Walk.cons ⟨relTie2, by decide, rfl⟩ (Walk.nil "B")
  · intro p hp
    simpa using h.2 p hp

/-- **C2.** Over every relation path, the cumulative generation offset
is exactly the claim's per-step rule (on a PARENT step, `+1` when the
relation's `childId` equals the current person id, `-1` otherwise), and
lineage is assigned exactly once, at the first step, only when that
step is an upward PARENT step, paternal for a male parent and maternal
otherwise; any other first step leaves lineage `none`. -/
theorem C2_generation_lineage (persons : List Person) (userId : String)
    (rels : List Relation) :
    (computeGenLineage persons userId rels).1 = genSpecAux rels userId
    ∧ (computeGenLineage persons userId rels).2 = lineageSpec persons userId rels := by
  rw [computeGenLineage_eq]
  exact ⟨rfl, rfl⟩

/-- **C5.** Querying the engine for the reference person itself always
yields generation 0, lineage none, confidence 1.0 and the identity
record (the unknown title with explanation `"Bạn"`). -/
theorem C5_self_query (persons : List Person) (relations : List Relation)
    (p : String) :
    calculateAddressing persons relations p p = some selfInfo
    ∧ selfInfo.generation = 0 ∧ selfInfo.lineage = none
    ∧ selfInfo.confidence = 1 ∧ selfInfo.title = AddressingTitle.UNKNOWN
    ∧ selfInfo.explanation = "Bạn" := by
  refine ⟨?_, rfl, rfl, rfl, rfl, rfl⟩
  rw [calculateAddressing, if_pos rfl]

/-- **C6.** Every record built by the resolution pipeline carries the
confidence dictated by the claim's formula (0.0 for the unknown title,
else 0.3 for a "Không xác định" explanation, else 0.6 for an
explanation containing a question mark, else 0.9), and an unreachable
target resolves to the unknown record with confidence 0 instead of
raising. -/
theorem C6_confidence (title explanation : String) (lineage : Option LineageType)
    (generation : Int) (persons : List Person) (relations : List Relation)
    (userId personId : String) (hne : personId ≠ userId)
    (hunreach : findRelationPath relations userId personId = none) :
    (createAddressingInfo title explanation lineage generation).confidence
      = confSpec title explanation
    ∧ calculateAddressing persons relations userId personId = some unknownInfo
    ∧ unknownInfo.title = AddressingTitle.UNKNOWN
    ∧ unknownInfo.confidence = 0 := by
  refine ⟨rfl, ?_, rfl, rfl⟩
  rw [calculateAddressing, if_neg hne, hunreach]

/-- Witness for C6: the target `"Z"` is unreachable from `"U"` in the
empty relation list and resolves to the unknown record. -/
theorem C6_confidence_witness :
    ("Z" : String) ≠ "U"
    ∧ findRelationPath [] "U" "Z" = none
    ∧ calculateAddressing [personU] [] "U" "Z" = some unknownInfo := by
  refine ⟨by decide, by decide, ?_⟩
  exact (C6_confidence "x" "y" none 0 [personU] [] "U" "Z" (by decide)
    (by decide)).2.1

/-- **C9.** On every input, including cyclic data, the BFS drains its
queue within the supplied fuel (the visited set strictly grows at each
fresh dequeue, which is the measure behind `initFuel`), so
`findRelationPath` always produces a finite path or `none`; on the
two-relation cycle A parent-of B, B parent-of A it returns a
one-edge path for B and `none` for an absent target. -/
theorem C9_termination :
    (∀ (relations : List Relation) (fromId toId : String),
      ∃ r, bfsAux relations toId (initFuel fromId relations) [⟨fromId, []⟩] ∅ = some r)
    ∧ findRelationPath [relCycAB, relCycBA] "A" "B" = some ["c1"]
    ∧ findRelationPath [relCycAB, relCycBA] "A" "C" = none := by
  refine ⟨?_, by decide, by decide⟩
  intro relations fromId toId
  obtain ⟨r, hr, _⟩ := bfsAux_run relations fromId toId
  exact ⟨r, hr⟩

/-- **C10.** For a fixed `(persons, relations, userId)` snapshot, both
`calculateAddressing` and `getRelationPath` are unchanged under any
choice of the optional precomputed `tree` and `clusterMap` constructor
arguments: the methods read only the person and relation lists. -/
theorem C10_precomputed_independence (persons : List Person)
    (relations : List Relation) (userId : String)
    (t1 t2 : Option Tree) (c1 c2 : Option ClusterMap)
    (personId fromId toId : String) :
    (AddressingEngine.create persons relations userId t1 c1).calculateAddressing
        personId
      = (AddressingEngine.create persons relations userId t2 c2).calculateAddressing
        personId
    ∧ (AddressingEngine.create persons relations userId t1 c1).getRelationPath
        fromId toId
      = (AddressingEngine.create persons relations userId t2 c2).getRelationPath
        fromId toId :=
  ⟨rfl, rfl⟩

/-- **C3.** Whenever the resolved path's last relation carries a
non-empty label whose `subjectId` is unset (absent or empty, the
truthiness test) or equals the target person's id,
`calculateAddressing` returns that label verbatim as the title with the
direct-relation explanation, for every snapshot — hence independently
of the target's gender and of the computed generation. -/
theorem C3_label_override (persons : List Person) (relations : List Relation)
    (userId personId : String) (path : List String) (rels : List Relation)
    (lastR : Relation) (lab : String)
    (hpath : findRelationPath relations userId personId = some path)
    (hne : path ≠ [])
    (hres : resolvePath relations path = some rels)
    (hlast : rels.getLast? = some lastR)
    (hlab : lastR.label = some lab) (hlabne : lab ≠ "")
    (hsub : lastR.subjectId = none ∨ lastR.subjectId = some "" ∨
      ∃ tp, findPerson persons (chainEnd rels userId) = some tp ∧
        lastR.subjectId = some tp.id) :
    ∃ info, calculateAddressing persons relations userId personId = some info
      ∧ info.title = lab
      ∧ info.explanation = "Quan hệ trực tiếp: " ++ lab := by
  have hneq : personId ≠ userId := by
    intro h
    subst h
    rw [findRelationPath, if_pos rfl] at hpath
    exact hne (Option.some_inj.mp hpath).symm
  rcases path with _ | ⟨a, as⟩
  · exact absurd rfl hne
  have hca : calculateAddressing persons relations userId personId
      = analyzeRelationPath persons relations userId (a :: as) := by
    rw [calculateAddressing, if_neg hneq, hpath]
  refine ⟨createAddressingInfo lab ("Quan hệ trực tiếp: " ++ lab)
    (computeGenLineage persons userId rels).2
    (computeGenLineage persons userId rels).1, ?_, rfl, rfl⟩
  rw [hca]
  rcases hsub with hs | hs | ⟨tp, htp, hs⟩
  · simp [analyzeRelationPath, hres, hlast, hlab, hs, strTruthy, hlabne]
  · simp [analyzeRelationPath, hres, hlast, hlab, hs, strTruthy, hlabne]
  · by_cases hid : tp.id = ""
    · simp [analyzeRelationPath, hres, hlast, hlab, hs, hid, strTruthy, hlabne]
    · simp [analyzeRelationPath, hres, hlast, hlab, hs, strTruthy, hlabne,
        hid, htp]

/-- Witness for C3: the labelled custom relation `r3` between U and X
(no `subjectId`) makes `calculateAddressing` return "Sư phụ" verbatim. -/
theorem C3_label_override_witness :
    ∃ info, calculateAddressing [personU, personX] [relLabel] "U" "X" = some info
      ∧ info.title = "Sư phụ"
      ∧ info.explanation = "Quan hệ trực tiếp: " ++ "Sư phụ" :=
  C3_label_override [personU, personX] [relLabel] "U" "X" ["r3"] [relLabel]
    relLabel "Sư phụ" (by decide) (by decide) (by decide) (by decide) rfl
    (by decide) (Or.inl rfl)

/-- **C4.** For generation offset 1 and step sequence
`[PARENT, SIBLING]`, the resolver picks one of four pairwise distinct
parent's-sibling terms by lineage crossed with target gender; in
particular the path through the reference person's father to the
father's brother resolves to the paternal-uncle term "Chú", not the
maternal "Cậu". -/
theorem C4_parent_sibling_terms (tp : Person) (io1 io2 : Option Bool) :
    ((analyzeComplexRelation [⟨.parent, io1⟩, ⟨.sibling, io2⟩] 1
        (some .paternal) tp).title
      = if tp.gender = .male then AddressingTitle.CHU else AddressingTitle.CO)
    ∧ ((analyzeComplexRelation [⟨.parent, io1⟩, ⟨.sibling, io2⟩] 1
        (some .maternal) tp).title
      = if tp.gender = .male then AddressingTitle.CAU else AddressingTitle.DI)
    ∧ [AddressingTitle.CHU, AddressingTitle.CO, AddressingTitle.CAU,
        AddressingTitle.DI].Nodup
    ∧ (calculateAddressing [personU, personF, personC] [relFU, relFC]
        "U" "C").map (·.title) = some AddressingTitle.CHU
    ∧ (calculateAddressing [personU, personF, personC] [relFU, relFC]
        "U" "C").map (·.lineage) = some (some .paternal) := by
  refine ⟨?_, ?_, by decide, by decide, by decide⟩
  · by_cases hg : tp.gender = Gender.male <;>
      simp [analyzeComplexRelation, createAddressingInfo, hg]
  · by_cases hg : tp.gender = Gender.male <;>
      simp [analyzeComplexRelation, createAddressingInfo, hg]

/-- **C7.** For every PARENT relation processed by the graph builder:
with both direction fields present the adjacency follows them directly;
otherwise with both birth years known the earlier-born endpoint becomes
the parent; and with birth years unavailable `personAId` becomes the
parent and `personBId` the child. -/
theorem C7_parent_direction (persons : List Person) (t : Tree) (r : Relation)
    (hr : r.type = .parent) :
    (∀ pid cid, r.parentId = some pid → r.childId = some cid →
      pid ≠ "" → cid ≠ "" →
      cid ∈ childrenOf (processRelation persons t r) pid
      ∧ pid ∈ parentsOf (processRelation persons t r) cid)
    ∧ (∀ a b ya yb,
        ¬ (strTruthy r.parentId = true ∧ strTruthy r.childId = true) →
        findPerson persons r.personAId = some a →
        findPerson persons r.personBId = some b →
        a.birthYear = some ya → b.birthYear = some yb →
        (ya < yb →
          b.id ∈ childrenOf (processRelation persons t r) a.id
          ∧ a.id ∈ parentsOf (processRelation persons t r) b.id)
        ∧ (yb < ya →
          a.id ∈ childrenOf (processRelation persons t r) b.id
          ∧ b.id ∈ parentsOf (processRelation persons t r) a.id))
    ∧ ((∀ a b, findPerson persons r.personAId = some a →
          findPerson persons r.personBId = some b →
          a.birthYear = none ∨ b.birthYear = none) →
        ¬ (strTruthy r.parentId = true ∧ strTruthy r.childId = true) →
        r.personBId ∈ childrenOf (processRelation persons t r) r.personAId
        ∧ r.personAId ∈ parentsOf (processRelation persons t r) r.personBId) := by
  refine ⟨?_, ?_, ?_⟩
  · intro pid cid hpid hcid hpidne hcidne
    rw [processRelation, if_pos hr,
      if_pos (by rw [hpid, hcid]; simp [strTruthy, hpidne, hcidne]), hpid, hcid]
    exact linkParentChild_mem t pid cid
  · intro a b ya yb hnot hfa hfb hya hyb
    simp only [findPerson] at hfa hfb
    have hstep : processRelation persons t r =
        if ya < yb then linkParentChild t a.id b.id
        else linkParentChild t b.id a.id := by
      rw [processRelation, if_pos hr,
        if_neg (by simpa [Bool.and_eq_true] using hnot)]
      simp only [hfa, hfb, hya, hyb]
    rw [hstep]
    constructor
    · intro hlt
      rw [if_pos hlt]
      exact linkParentChild_mem t a.id b.id
    · intro hlt
      rw [if_neg (by omega)]
      exact linkParentChild_mem t b.id a.id
  · intro hno hnot
    have hstep : processRelation persons t r =
        linkParentChild t r.personAId r.personBId := by
      rw [processRelation, if_pos hr,
        if_neg (by simpa [Bool.and_eq_true] using hnot)]
      cases hfa : List.find? (fun p => p.id == r.personAId) persons with
      | none => rfl
      | some a =>
        cases hfb : List.find? (fun p => p.id == r.personBId) persons with
        | none => rfl
        | some b =>
          rcases hno a b (by rw [findPerson]; exact hfa)
              (by rw [findPerson]; exact hfb) with h | h
          · simp [h]
          · cases haa : a.birthYear <;> simp [h, haa]
    rw [hstep]
    exact linkParentChild_mem t r.personAId r.personBId

/-- Witness for C7, birth-year inference case: P (born 1950) and Q
(born 1980) joined by a direction-less PARENT relation; P becomes the
parent. -/
theorem C7_parent_direction_witness :
    ("Q" : String) ∈ childrenOf (processRelation [personOld, personYoung] [] relPQ) "P"
    ∧ ("P" : String) ∈ parentsOf (processRelation [personOld, personYoung] [] relPQ) "Q" := by
  have h := ((C7_parent_direction [personOld, personYoung] [] relPQ rfl).2.1
    personOld personYoung 1950 1980 (by decide) (by decide) (by decide)
    rfl rfl).1 (by decide)
  exact h

/-- Refutation of C8 as stated: the dangling endpoint X of the PARENT
relation `r5` receives a **linked**, not isolated, adjacency record
(its `parents` list names U). -/
theorem C8_counterexample :
    treeGet (buildTree [personU] [relDangling]) "X"
      = some { parents := ["U"], children := [], spouses := [] }
    ∧ treeGet (buildTree [personU] [relDangling]) "X" ≠ some ({} : TreeNode) := by
  decide

/-- **C8 (amended).** Building the relation graph from input containing
a relation that references a person id absent from the person list does
not fail: the dangling id receives an adjacency record, linked
according to the relation rather than isolated; and since path-finder
results consist solely of relation ids, a person id that is not used as
any relation's id never appears in any result of the path finder. -/
theorem C8_dangling_tolerated (relations : List Relation)
    (fromId toId x : String) (p : List String)
    (hp : findRelationPath relations fromId toId = some p)
    (hx : ∀ r ∈ relations, r.id ≠ x) :
    x ∉ p
    ∧ treeGet (buildTree [personU] [relDangling]) "X"
      = some { parents := ["U"], children := [], spouses := [] } := by
  refine ⟨?_, by decide⟩
  intro hmem
  obtain ⟨r, hr, hid⟩ := findRelationPath_ids relations fromId toId hp x hmem
  exact hx r hr hid

/-- Witness for the amended C8: the dangling person id "X" (used by no
relation id) is absent from the concrete path result. -/
theorem C8_dangling_tolerated_witness :
    findRelationPath [relDangling] "U" "X" = some ["r5"]
    ∧ ("X" : String) ∉ (["r5"] : List String) := by
  refine ⟨by decide, ?_⟩
  exact (C8_dangling_tolerated [relDangling] "U" "X" "X" ["r5"] (by decide)
    (by decide)).1

end FamilyTree
